import Mathlib

/-!
Shallow embedding of the `weakref` crate's core (`src/guts.rs`).

The crate pairs a unique owning handle `Own` with copyable weak handles
`Ref`.  Each owner references a generation counter cell (a `&'static
AtomicUsize`); a weak handle is alive exactly when the cell's current
generation equals the generation captured at creation.  Dropping the owner
runs the kill protocol: a compare-and-set bumping the cell from the
expected generation to `expected + 1`, and the cell is recycled through a
two-level pool (a per-thread `Vec` cache plus a global `SegQueue` of
`BLOCK_SIZE`-sized blocks) unless the new generation is `usize::MAX`.

Modelling conventions:
  * A cell is identified by its index into `State.gens`, the list of
    current generation values of every cell allocated so far; the static
    cell used by `Ref::null` (generation pinned at `usize::MAX`, only ever
    read) is the extra constructor `Cell.staticRetired`.
  * Generations are `Nat` with `USIZE_MAX = 2 ^ 64 - 1`; in every
    execution an owner's expected generation stays below `USIZE_MAX`
    (retired cells are never recycled), so `Nat` addition agrees with
    `usize` addition everywhere the code performs it.
  * The per-thread `Vec` cache is a `List Nat` in `Vec` order: `push`
    appends on the right, `pop` takes the last element.  Its capacity is
    fixed at `2 * BLOCK_SIZE` as allocated by `Vec::with_capacity`.
  * A block of the global `SegQueue` is a pair `(next, rest)`, mirroring
    the irrefutable `let [next, rest @ ..] = block` destructuring of the
    `[GenerationCounter; BLOCK_SIZE]` array; the queue is a `List` with
    the front at the head (`push` appends, `pop` takes the head).
  * A raw pointer is modelled by the value it points to: `Option α`
    stands for `Option<NonNull<T>>`.  Epoch guards (`&Guard`) have no
    effect on the sequential semantics and are dropped; deferred
    destruction is likewise invisible to the generation protocol.
  * A Rust `panic!` (the kill protocol's failed compare-and-set, and the
    `.unwrap()` in `Own::new_from`) is `Option.none` in the result.
-/

namespace Weakref

/-- Constant `BLOCK_SIZE` from guts.rs (the non-loom value). -/
def BLOCK_SIZE : Nat := 256

/-- The maximum representable generation, `usize::MAX` on a 64-bit target. -/
def USIZE_MAX : Nat := 2 ^ 64 - 1

/-- Identity of a generation counter cell: either a recycler-allocated cell
(an index into the state's list of generations) or the permanently retired
static cell used by `Ref.null`. -/
inductive Cell where
  | dyn (i : Nat)
  | staticRetired
deriving DecidableEq, Repr

/-- Global state of the embedding: the generation value of every allocated
cell, the per-thread recycler cache, and the global recycler queue of
blocks (each block stored as first counter plus remaining counters). -/
structure State where
  gens : List Nat
  localRec : List Nat
  globalRec : List (Nat × List Nat)
deriving DecidableEq, Repr

/-- Current generation of a cell: a load of the `AtomicUsize`.  The static
cell of `Ref.null` is initialised to `usize::MAX` and never written. -/
def lookupGen (s : State) : Cell → Nat
  | Cell.dyn i => s.gens.getD i 0
  | Cell.staticRetired => USIZE_MAX

/-- Acquire, `new_generation_counter` from guts.rs: pop the per-thread cache if
non-empty; otherwise pop one block from the global queue, keep its first
counter and extend the cache with the rest; otherwise allocate a fresh
block of `BLOCK_SIZE` zero-initialised counters, extend the cache with all
of them and pop one back off. -/
def new_generation_counter (s : State) : Nat × State :=
  match s.localRec.getLast? with
  | some c => (c, { s with localRec := s.localRec.dropLast })
  | none =>
    match s.globalRec with
    | (next, rest) :: pool =>
      (next, { s with localRec := rest, globalRec := pool })
    | [] =>
      let fresh := (List.range BLOCK_SIZE).map (fun j => s.gens.length + j)
      (s.gens.length + (BLOCK_SIZE - 1),
       { gens := s.gens ++ List.replicate BLOCK_SIZE 0,
         localRec := fresh.dropLast,
         globalRec := s.globalRec })

/-- Release, `recycle_generation_counter` from guts.rs: when the cache is at its
capacity of `2 * BLOCK_SIZE`, first drain `BLOCK_SIZE` counters off its top
(`std::array::from_fn(|_| pop())`, so the drained block holds the last
`BLOCK_SIZE` cache entries in reverse order) into a block pushed onto the
global queue; then push the counter. -/
def recycle_generation_counter (c : Nat) (s : State) : State :=
  if s.localRec.length = 2 * BLOCK_SIZE then
    let drained := (s.localRec.drop BLOCK_SIZE).reverse
    { s with
      localRec := s.localRec.take BLOCK_SIZE ++ [c],
      globalRec := s.globalRec ++ [(drained.headD 0, drained.tail)] }
  else
    { s with localRec := s.localRec ++ [c] }

/-- Weak handle `Ref<T>` from guts.rs: a counter cell, the generation captured at
creation, and an optional pointer (modelled by the pointee value). -/
structure Ref (α : Type) where
  current_gen : Cell
  expected_gen : Nat
  pointer : Option α
deriving DecidableEq, Repr

/-- Owner `Own<P>` from guts.rs: a transparent wrapper holding the weak
reference `_weak`. -/
structure Own (α : Type) where
  weak : Ref α
deriving DecidableEq, Repr

/-- Accessor `Own::refer`. -/
def Own.refer (o : Own α) : Ref α := o.weak

/-- Constructor `Own::new_reuse`: record the cell's current generation (the
`Acquire` load) as the expected generation of the new owner. -/
def Own.new_reuse (cid : Nat) (v : α) (s : State) : Own α :=
  { weak :=
    { current_gen := Cell.dyn cid
      expected_gen := lookupGen s (Cell.dyn cid)
      pointer := some v } }

/-- Constructor `Own::new`: acquire a counter from the recycler, then `new_reuse`. -/
def Own.new (v : α) (s : State) : Own α × State :=
  let p := new_generation_counter s
  (Own.new_reuse p.1 v p.2, p.2)

/-- Kill protocol `Own::kill_mut`: compute `new_gen = expected_gen + 1` and
compare-and-set the cell from `expected_gen` to `new_gen`; on failure
panic (`none`); on success return the counter for recycling unless
`new_gen = usize::MAX`, in which case the cell is retired (`some none`).
No owner ever references the static cell (it is private to `Ref.null`),
and a compare-and-set against it at any expected generation an owner can
hold would fail, so that branch panics. -/
def Own.kill_mut (o : Own α) (s : State) : Option (Option Nat × State) :=
  match o.weak.current_gen with
  | Cell.dyn i =>
    let new_gen := o.weak.expected_gen + 1
    if s.gens.getD i 0 = o.weak.expected_gen then
      some
        (if new_gen ≠ USIZE_MAX then some i else none,
         { s with gens := s.gens.set i new_gen })
    else
      none
  | Cell.staticRetired => none

/-- Destructor `Drop for Own`: kill, then recycle the counter if one came back.
`none` is a propagated panic. -/
def Own.drop (o : Own α) (s : State) : Option State :=
  match o.kill_mut s with
  | some (some c, s') => some (recycle_generation_counter c s')
  | some (none, s') => some s'
  | none => none

/-- Transfer `Own::new_from`: kill the old owner and `.unwrap()` the returned
counter (panicking, `none`, when the kill retired the cell or itself
panicked), then `new_reuse` it for the new owner. -/
def Own.new_from (v : β) (old : Own α) (s : State) : Option (Own β × State) :=
  match old.kill_mut s with
  | some (some c, s') => some (Own.new_reuse c v s', s')
  | some (none, _) => none
  | none => none

/-- Resolution `Ref::get`: `Acquire`-load the cell's generation; on a match return
the pointer's target (`None` when the pointer itself is absent), otherwise
`None`.  The guard argument of the source only scopes the borrow and is
dropped here. -/
def Ref.get (r : Ref α) (s : State) : Option α :=
  if lookupGen s r.current_gen = r.expected_gen then r.pointer else none

/-- Projection `Ref::map_with`: same cell and expected generation; the pointer is
`func` applied to the live borrow, absent when the source is dead. -/
def Ref.map_with (r : Ref α) (func : α → β) (s : State) : Ref β :=
  { current_gen := r.current_gen
    expected_gen := r.expected_gen
    pointer :=
      match r.get s with
      | some value => some (func value)
      | none => none }

/-- Projection `Ref::map` pins the thread and calls `map_with`; pinning does not
change the state. -/
def Ref.map (r : Ref α) (func : α → β) (s : State) : Ref β :=
  r.map_with func s

/-- Projection `Ref::filter_map_with`: same cell and expected generation; the pointer
is whatever `func` returns on the live borrow, absent when the source is
dead. -/
def Ref.filter_map_with (r : Ref α) (func : α → Option β) (s : State) : Ref β :=
  { current_gen := r.current_gen
    expected_gen := r.expected_gen
    pointer :=
      match r.get s with
      | some value => func value
      | none => none }

/-- Projection `Ref::filter_map` pins the thread and calls `filter_map_with`. -/
def Ref.filter_map (r : Ref α) (func : α → Option β) (s : State) : Ref β :=
  r.filter_map_with func s

/-- Liveness check `Ref::is_alive`: `Relaxed`-load the generation; alive iff it matches
the expected generation and the pointer is present. -/
def Ref.is_alive (r : Ref α) (s : State) : Bool :=
  decide (lookupGen s r.current_gen = r.expected_gen) && r.pointer.isSome

/-- Null check `Ref::is_null`: the pointer is absent. -/
def Ref.is_null (r : Ref α) : Bool :=
  r.pointer.isNone

/-- Sentinel `Ref::null`: the static retired cell (generation `usize::MAX`),
expected generation `0`, absent pointer. -/
def Ref.null : Ref α :=
  { current_gen := Cell.staticRetired
    expected_gen := 0
    pointer := none }

/-- One state transition of the library: creating an owner, dropping an
owner, or transferring an owner with `Own::new_from`.  These are the only
operations that touch the generation cells or the recycler pools (`Ref`
operations are read-only, `Own::refer` is a field read). -/
inductive Step : State → State → Prop where
  | new (α : Type) (v : α) (s : State) : Step s (Own.new v s).2
  | drop (α : Type) (o : Own α) (s s' : State) : o.drop s = some s' → Step s s'
  | new_from (α β : Type) (old : Own α) (v : β) (o' : Own β) (s s' : State) :
      Own.new_from v old s = some (o', s') → Step s s'

/-- Any number of further library operations. -/
def Reachable : State → State → Prop :=
  Relation.ReflTransGen Step

/-- Well-formedness of the recycler pools: the per-thread cache is within
its `Vec` capacity and every block of the global queue carries exactly
`BLOCK_SIZE` counters (one in its head slot, `BLOCK_SIZE - 1` in the
rest). -/
def RecyclerInv (s : State) : Prop :=
  s.localRec.length ≤ 2 * BLOCK_SIZE ∧ ∀ b ∈ s.globalRec, b.2.length = BLOCK_SIZE - 1

theorem getD_le_append_replicate (l : List Nat) (k i : Nat) :
    l.getD i 0 ≤ (l ++ List.replicate k 0).getD i 0 := by
  rcases Nat.lt_or_ge i l.length with hi | hi
  · rw [List.getD_append _ _ _ _ hi]
  · rw [List.getD_eq_default _ _ hi]
    exact Nat.zero_le _

theorem getD_le_set_succ (l : List Nat) (j i : Nat) :
    l.getD i 0 ≤ (l.set j (l.getD j 0 + 1)).getD i 0 := by
  rcases Nat.lt_or_ge j l.length with hj | hj
  · rcases eq_or_ne i j with rfl | hne
    · have hi' : i < (l.set i (l.getD i 0 + 1)).length := by simpa using hj
      rw [List.getD_eq_getElem _ _ hi', List.getElem_set_self]
      exact Nat.le_succ _
    · rcases Nat.lt_or_ge i l.length with hi | hi
      · have hi' : i < (l.set j (l.getD j 0 + 1)).length := by simpa using hi
        rw [List.getD_eq_getElem _ _ hi', List.getElem_set_ne hne.symm,
          List.getD_eq_getElem _ _ hi]
      · rw [List.getD_eq_default _ _ hi, List.getD_eq_default _ _ (by simpa using hi)]
  · rw [List.set_eq_of_length_le hj]

theorem kill_mut_eq_some {α : Type} (o : Own α) (s : State) (res : Option Nat × State)
    (h : o.kill_mut s = some res) :
    ∃ j, o.weak.current_gen = Cell.dyn j
      ∧ s.gens.getD j 0 = o.weak.expected_gen
      ∧ res.1 = (if o.weak.expected_gen + 1 ≠ USIZE_MAX then some j else none)
      ∧ res.2 = { s with gens := s.gens.set j (o.weak.expected_gen + 1) } := by
  cases hc : o.weak.current_gen with
  | staticRetired => simp [Own.kill_mut, hc] at h
  | dyn j =>
    simp only [Own.kill_mut, hc] at h
    split at h
    · rename_i hg
      refine ⟨j, rfl, hg, ?_, ?_⟩ <;> rw [← Option.some_inj.mp h]
    · exact absurd h (by simp)

theorem recycle_gens (c : Nat) (s : State) :
    (recycle_generation_counter c s).gens = s.gens := by
  unfold recycle_generation_counter
  split <;> rfl

theorem new_counter_gens_cases (s : State) :
    (new_generation_counter s).2.gens = s.gens ∨
    (new_generation_counter s).2.gens = s.gens ++ List.replicate BLOCK_SIZE 0 := by
  cases h1 : s.localRec.getLast? with
  | some c => left; simp [new_generation_counter, h1]
  | none =>
    cases h2 : s.globalRec with
    | nil => right; simp [new_generation_counter, h1, h2]
    | cons b pool =>
      cases b
      left
      simp [new_generation_counter, h1, h2]

theorem drop_eq_some {α : Type} (o : Own α) (s s' : State) (h : o.drop s = some s') :
    ∃ j, o.weak.current_gen = Cell.dyn j
      ∧ s.gens.getD j 0 = o.weak.expected_gen
      ∧ s'.gens = s.gens.set j (o.weak.expected_gen + 1) := by
  unfold Own.drop at h
  cases hk : o.kill_mut s with
  | none => rw [hk] at h; cases h
  | some res =>
    rw [hk] at h
    obtain ⟨j, hc, hg, h1, h2⟩ := kill_mut_eq_some o s res hk
    refine ⟨j, hc, hg, ?_⟩
    rcases res with ⟨copt, s₂⟩
    cases copt with
    | some c =>
      have hs' : recycle_generation_counter c s₂ = s' := Option.some_inj.mp h
      rw [← hs', recycle_gens]
      rw [show s₂ = ({ s with gens := s.gens.set j (o.weak.expected_gen + 1) } : State) from h2]
    | none =>
      have hs' : s₂ = s' := Option.some_inj.mp h
      rw [← hs']
      rw [show s₂ = ({ s with gens := s.gens.set j (o.weak.expected_gen + 1) } : State) from h2]

theorem new_from_eq_some {α β : Type} (old : Own α) (v : β) (o' : Own β) (s s' : State)
    (h : Own.new_from v old s = some (o', s')) :
    ∃ j, old.weak.current_gen = Cell.dyn j
      ∧ s.gens.getD j 0 = old.weak.expected_gen
      ∧ s'.gens = s.gens.set j (old.weak.expected_gen + 1)
      ∧ o' = Own.new_reuse j v s' := by
  unfold Own.new_from at h
  cases hk : old.kill_mut s with
  | none => rw [hk] at h; cases h
  | some res =>
    rw [hk] at h
    obtain ⟨j, hc, hg, h1, h2⟩ := kill_mut_eq_some old s res hk
    rcases res with ⟨copt, s₂⟩
    cases copt with
    | some c =>
      have hpair : (Own.new_reuse c v s₂, s₂) = (o', s') := Option.some_inj.mp h
      have hcj : c = j := by
        by_cases hmax : old.weak.expected_gen + 1 ≠ USIZE_MAX
        · simpa [hmax] using h1
        · simp [hmax] at h1
      have ho' : o' = Own.new_reuse c v s₂ := (congrArg Prod.fst hpair).symm
      have hs' : s₂ = s' := congrArg Prod.snd hpair
      subst hcj
      refine ⟨c, hc, hg, ?_, ?_⟩
      · rw [← hs']
        rw [show s₂ = ({ s with gens := s.gens.set c (old.weak.expected_gen + 1) } : State) from h2]
      · rw [ho', hs']
    | none => cases h

theorem step_gens_le {s s' : State} (h : Step s s') (i : Nat) :
    s.gens.getD i 0 ≤ s'.gens.getD i 0 := by
  cases h with
  | new α v s =>
    show s.gens.getD i 0 ≤ (new_generation_counter s).2.gens.getD i 0
    rcases new_counter_gens_cases s with h | h
    · rw [h]
    · rw [h]
      exact getD_le_append_replicate _ _ _
  | drop α o s s' hd =>
    obtain ⟨j, _, hg, hs⟩ := drop_eq_some o s s' hd
    rw [hs, ← hg]
    exact getD_le_set_succ _ _ _
  | new_from α β old v o' s s' hn =>
    obtain ⟨j, _, hg, hs, _⟩ := new_from_eq_some old v o' s s' hn
    rw [hs, ← hg]
    exact getD_le_set_succ _ _ _

theorem reachable_gens_le {s s' : State} (h : Reachable s s') (i : Nat) :
    s.gens.getD i 0 ≤ s'.gens.getD i 0 := by
  have h' : Relation.ReflTransGen Step s s' := h
  clear h
  induction h' with
  | refl => exact Nat.le_refl _
  | tail hab hbc ih => exact Nat.le_trans ih (step_gens_le hbc i)

theorem recycle_localRec_cases (c : Nat) (s : State) :
    (s.localRec.length = 2 * BLOCK_SIZE
      ∧ (recycle_generation_counter c s).localRec = s.localRec.take BLOCK_SIZE ++ [c]
      ∧ (recycle_generation_counter c s).globalRec =
          s.globalRec ++ [(((s.localRec.drop BLOCK_SIZE).reverse).headD 0,
                           ((s.localRec.drop BLOCK_SIZE).reverse).tail)])
    ∨ (s.localRec.length ≠ 2 * BLOCK_SIZE
      ∧ (recycle_generation_counter c s).localRec = s.localRec ++ [c]
      ∧ (recycle_generation_counter c s).globalRec = s.globalRec) := by
  unfold recycle_generation_counter
  by_cases h : s.localRec.length = 2 * BLOCK_SIZE
  · left
    exact ⟨h, by rw [if_pos h], by rw [if_pos h]⟩
  · right
    exact ⟨h, by rw [if_neg h], by rw [if_neg h]⟩

theorem recycle_inv (c : Nat) (s : State) (h : RecyclerInv s) :
    RecyclerInv (recycle_generation_counter c s) := by
  obtain ⟨h1, h2⟩ := h
  rcases recycle_localRec_cases c s with ⟨hcap, hl, hg⟩ | ⟨hcap, hl, hg⟩
  · constructor
    · rw [hl]
      simp only [List.length_append, List.length_take, List.length_cons, List.length_nil]
      simp only [BLOCK_SIZE] at hcap ⊢
      omega
    · intro b hb
      rw [hg] at hb
      rcases List.mem_append.mp hb with hb | hb
      · exact h2 b hb
      · have hb' : b = (((s.localRec.drop BLOCK_SIZE).reverse).headD 0,
            ((s.localRec.drop BLOCK_SIZE).reverse).tail) := List.mem_singleton.mp hb
        rw [hb']
        simp only [List.length_tail, List.length_reverse, List.length_drop]
        simp only [BLOCK_SIZE] at hcap ⊢
        omega
  · constructor
    · rw [hl]
      simp only [List.length_append, List.length_cons, List.length_nil]
      omega
    · intro b hb
      rw [hg] at hb
      exact h2 b hb

theorem new_counter_inv (s : State) (h : RecyclerInv s) :
    RecyclerInv (new_generation_counter s).2 := by
  obtain ⟨h1, h2⟩ := h
  cases hlast : s.localRec.getLast? with
  | some c =>
    refine ⟨?_, ?_⟩ <;> simp only [new_generation_counter, hlast]
    · simp only [List.length_dropLast]
      omega
    · exact h2
  | none =>
    cases hglob : s.globalRec with
    | nil =>
      refine ⟨?_, ?_⟩ <;> simp only [new_generation_counter, hlast, hglob]
      · simp only [List.length_dropLast, List.length_map, List.length_range]
        omega
      · intro b hb
        exact absurd hb (List.not_mem_nil b)
    | cons blk pool =>
      cases blk with
      | mk next rest =>
        refine ⟨?_, ?_⟩ <;> simp only [new_generation_counter, hlast, hglob]
        · have := h2 (next, rest) (by rw [hglob]; exact List.mem_cons_self _ _)
          simp only at this
          simp only [this]
          omega
        · intro b hb
          exact h2 b (by rw [hglob]; exact List.mem_cons_of_mem _ hb)

theorem step_inv {s s' : State} (h : Step s s') (hs : RecyclerInv s) : RecyclerInv s' := by
  cases h with
  | new α v s =>
    exact new_counter_inv s hs
  | drop α o s s' hd =>
    unfold Own.drop at hd
    cases hk : o.kill_mut s with
    | none => rw [hk] at hd; cases hd
    | some res =>
      rw [hk] at hd
      obtain ⟨j, _, _, _, h2⟩ := kill_mut_eq_some o s res hk
      have hres : RecyclerInv res.2 := by
        rw [h2]
        exact hs
      rcases res with ⟨copt, s₂⟩
      cases copt with
      | some c =>
        rw [← Option.some_inj.mp hd]
        exact recycle_inv c s₂ hres
      | none =>
        rw [← Option.some_inj.mp hd]
        exact hres
  | new_from α β old v o' s s' hn =>
    unfold Own.new_from at hn
    cases hk : old.kill_mut s with
    | none => rw [hk] at hn; cases hn
    | some res =>
      rw [hk] at hn
      obtain ⟨j, _, _, _, h2⟩ := kill_mut_eq_some old s res hk
      have hres : RecyclerInv res.2 := by
        rw [h2]
        exact hs
      rcases res with ⟨copt, s₂⟩
      cases copt with
      | some c =>
        have : s₂ = s' := congrArg Prod.snd (Option.some_inj.mp hn)
        rw [← this]
        exact hres
      | none => cases hn

theorem reachable_inv {s s' : State} (h : Reachable s s') (hs : RecyclerInv s) :
    RecyclerInv s' := by
  have h' : Relation.ReflTransGen Step s s' := h
  clear h
  induction h' with
  | refl => exact hs
  | tail hab hbc ih => exact step_inv hbc ih

theorem drop_retired {α β : Type} (w : β) (o : Own α) (s : State) (i : Nat)
    (hc : o.weak.current_gen = Cell.dyn i)
    (hok : lookupGen s (Cell.dyn i) = o.weak.expected_gen)
    (hmax : o.weak.expected_gen + 1 = USIZE_MAX) :
    o.kill_mut s = some (none, { s with gens := s.gens.set i USIZE_MAX })
    ∧ o.drop s = some { s with gens := s.gens.set i USIZE_MAX }
    ∧ Own.new_from w o s = none := by
  have hok' : s.gens.getD i 0 = o.weak.expected_gen := hok
  have hkill : o.kill_mut s = some (none, { s with gens := s.gens.set i USIZE_MAX }) := by
    simp only [Own.kill_mut, hc]
    rw [if_pos hok', hmax]
    simp
  refine ⟨hkill, ?_, ?_⟩
  · unfold Own.drop
    rw [hkill]
  · unfold Own.new_from
    rw [hkill]

/-- Claim C2: immediately after `Own::new(v)`, the weak handle obtained via
`refer()` resolves with `get` to the stored value `v`.  The guard argument
of `get` plays no role in the sequential semantics, so this holds for any
guard; the pointee type is arbitrary, covering every `IsPtr` pointer
kind. -/
theorem claim_C2 (α : Type) (v : α) (s : State) :
    ((Own.new v s).1.refer).get (Own.new v s).2 = some v := by
  simp [Own.new, Own.new_reuse, Own.refer, Ref.get]

/-- Claim C5: `map_with` and `filter_map_with` (and the `map`/`filter_map`
wrappers, which differ only in pinning) keep the source's cell and
expected generation; the produced pointer is the projection of the live
borrow at call time (`Option.map` for `map`, `Option.bind` for
`filter_map`), and absent when the source is dead at call time or the
projection returns nothing. -/
theorem claim_C5 (α β : Type) (r : Ref α) (f : α → β) (g : α → Option β) (s : State) :
    (r.map_with f s).current_gen = r.current_gen
    ∧ (r.map_with f s).expected_gen = r.expected_gen
    ∧ (r.filter_map_with g s).current_gen = r.current_gen
    ∧ (r.filter_map_with g s).expected_gen = r.expected_gen
    ∧ (r.map_with f s).pointer = Option.map f (r.get s)
    ∧ (r.filter_map_with g s).pointer = Option.bind (r.get s) g
    ∧ r.map f s = r.map_with f s
    ∧ r.filter_map g s = r.filter_map_with g s := by
  refine ⟨rfl, rfl, rfl, rfl, ?_, ?_, rfl, rfl⟩ <;>
    cases hget : r.get s <;>
      simp [Ref.map_with, Ref.filter_map_with, hget]

/-- Claim C6: a handle with an absent pointer — whatever its cell and
expected generation, so in particular even when the generations match —
resolves to nothing, and `Ref::null` is such a handle: absent pointer,
expected generation `0`, on the static cell whose generation is pinned at
`usize::MAX`, a value strictly above the `0` that dynamic cells start
at. -/
theorem claim_C6 (α : Type) (c : Cell) (e : Nat) (s : State) :
    (Ref.mk c e (none : Option α)).get s = none
    ∧ (Ref.null : Ref α).get s = none
    ∧ (Ref.null : Ref α).pointer = none
    ∧ (Ref.null : Ref α).expected_gen = 0
    ∧ lookupGen s (Ref.null : Ref α).current_gen = USIZE_MAX
    ∧ (0 : Nat) < USIZE_MAX := by
  refine ⟨?_, ?_, rfl, rfl, rfl, ?_⟩
  · simp [Ref.get]
  · simp [Ref.get, Ref.null]
  · norm_num [USIZE_MAX]

/-- Claim C7, amended: `is_alive()` returns `true` iff the loaded current
generation equals the handle's expected generation AND the handle's
pointer is present.  (The claim's "independent of whether the handle's
address is present" fails on the code: `is_alive` also requires
`self.pointer.is_some()`; see the counterexample.)  The single relaxed
atomic load is not itself observable in this sequential embedding. -/
theorem claim_C7 (α : Type) (r : Ref α) (s : State) :
    r.is_alive s = true ↔
      (lookupGen s r.current_gen = r.expected_gen ∧ r.pointer.isSome = true) := by
  simp [Ref.is_alive]

/-- Claim C7 counterexample: a handle whose cell generation equals its
expected generation but whose pointer is absent (as produced by
`filter_map` on a live source whose projection returns `None`) is reported
dead by `is_alive`, contradicting "true if and only if that loaded value
equals the handle's expected generation ... independent of whether the
handle's address is present". -/
theorem claim_C7_counterexample :
    lookupGen (State.mk [0] [] []) (Ref.mk (Cell.dyn 0) 0 (none : Option Nat)).current_gen
        = (Ref.mk (Cell.dyn 0) 0 (none : Option Nat)).expected_gen
    ∧ (Ref.mk (Cell.dyn 0) 0 (none : Option Nat)).is_alive (State.mk [0] [] []) = false := by
  constructor <;> rfl

/-- Claim C7 witness: a live handle with a present pointer is alive. -/
theorem claim_C7_witness :
    (Ref.mk (Cell.dyn 0) 0 (some (7 : Nat))).is_alive (State.mk [0] [] []) = true :=
  (claim_C7 Nat (Ref.mk (Cell.dyn 0) 0 (some 7)) (State.mk [0] [] [])).mpr ⟨rfl, rfl⟩

/-- Claim C3: the kill protocol computes `new_gen = expected_gen + 1` and
performs one compare-and-set from `expected_gen` to `new_gen`: when the
cell's current generation differs from the owner's expected generation the
kill panics (modelled as `none`), with no recovery path; when it matches,
the kill succeeds and the cell's value is exactly `expected_gen + 1` (the
returned counter being the cell unless `new_gen` is `usize::MAX`). -/
theorem claim_C3 (α : Type) (o o₂ : Own α) (s s₂ : State) (i i₂ : Nat)
    (hc : o.weak.current_gen = Cell.dyn i)
    (hfail : lookupGen s (Cell.dyn i) ≠ o.weak.expected_gen)
    (hc₂ : o₂.weak.current_gen = Cell.dyn i₂)
    (hi₂ : i₂ < s₂.gens.length)
    (hok : lookupGen s₂ (Cell.dyn i₂) = o₂.weak.expected_gen) :
    o.kill_mut s = none
    ∧ o₂.kill_mut s₂ =
        some (if o₂.weak.expected_gen + 1 ≠ USIZE_MAX then some i₂ else none,
          { s₂ with gens := s₂.gens.set i₂ (o₂.weak.expected_gen + 1) })
    ∧ lookupGen { s₂ with gens := s₂.gens.set i₂ (o₂.weak.expected_gen + 1) } (Cell.dyn i₂)
        = o₂.weak.expected_gen + 1 := by
  have hfail' : ¬ (s.gens.getD i 0 = o.weak.expected_gen) := hfail
  have hok' : s₂.gens.getD i₂ 0 = o₂.weak.expected_gen := hok
  refine ⟨?_, ?_, ?_⟩
  · simp only [Own.kill_mut, hc]
    rw [if_neg hfail']
  · simp only [Own.kill_mut, hc₂]
    rw [if_pos hok']
  · show (s₂.gens.set i₂ (o₂.weak.expected_gen + 1)).getD i₂ 0 = o₂.weak.expected_gen + 1
    rw [List.getD_eq_getElem _ _ (by simpa using hi₂), List.getElem_set_self]

/-- Claim C3 witness: a concrete mismatching kill panics; a concrete
matching kill bumps the cell from 0 to 1. -/
theorem claim_C3_witness :
    (Own.mk (Ref.mk (Cell.dyn 0) 5 (some (1 : Nat)))).kill_mut (State.mk [0] [] []) = none
    ∧ (Own.mk (Ref.mk (Cell.dyn 0) 0 (some (2 : Nat)))).kill_mut (State.mk [0] [] []) =
        some (if (0 : Nat) + 1 ≠ USIZE_MAX then some 0 else none,
          { State.mk [0] [] [] with gens := [0].set 0 (0 + 1) })
    ∧ lookupGen { State.mk [0] [] [] with gens := [0].set 0 (0 + 1) } (Cell.dyn 0) = 0 + 1 :=
  claim_C3 Nat (Own.mk (Ref.mk (Cell.dyn 0) 5 (some 1)))
    (Own.mk (Ref.mk (Cell.dyn 0) 0 (some 2)))
    (State.mk [0] [] []) (State.mk [0] [] []) 0 0
    rfl (by decide) rfl (by decide) rfl

/-- Claim C10: when killing `old` retires its cell (its expected
generation is `usize::MAX - 1`, so the new generation is `usize::MAX`),
the kill returns no reusable counter; `Own::new_from` unwraps that absence
and panics (`none`), while a plain drop of the same owner succeeds,
leaving the recycler untouched (the cell is leaked). -/
theorem claim_C10 (α β : Type) (w : β) (o : Own α) (s : State) (i : Nat)
    (hc : o.weak.current_gen = Cell.dyn i)
    (hok : lookupGen s (Cell.dyn i) = o.weak.expected_gen)
    (hmax : o.weak.expected_gen + 1 = USIZE_MAX) :
    Own.new_from w o s = none
    ∧ o.drop s = some { s with gens := s.gens.set i USIZE_MAX } := by
  obtain ⟨h1, h2, h3⟩ := drop_retired w o s i hc hok hmax
  exact ⟨h3, h2⟩

/-- Claim C1: once an owner has been killed — by drop or by `new_from` —
every weak handle sharing its cell and expected generation (the handle
from `refer()` and every projection of it) resolves to nothing, and keeps
resolving to nothing in every state reachable by further library
operations, including creations and drops that reuse the same cell.  The
validity hypothesis says the owner's cell exists, which holds for every
owner the library hands out. -/
theorem claim_C1 (α : Type) (o : Own α) (r : Ref α) (s s' s'' : State)
    (hcell : r.current_gen = o.weak.current_gen)
    (hexp : r.expected_gen = o.weak.expected_gen)
    (hvalid : ∀ i, o.weak.current_gen = Cell.dyn i → i < s.gens.length)
    (hkill : o.drop s = some s' ∨
      ∃ (β : Type) (w : β) (o' : Own β), Own.new_from w o s = some (o', s'))
    (hreach : Reachable s' s'') :
    r.get s'' = none := by
  obtain ⟨j, hc, hg, hs⟩ :
      ∃ j, o.weak.current_gen = Cell.dyn j
        ∧ s.gens.getD j 0 = o.weak.expected_gen
        ∧ s'.gens = s.gens.set j (o.weak.expected_gen + 1) := by
    rcases hkill with h | ⟨β, w, o', h⟩
    · exact drop_eq_some o s s' h
    · obtain ⟨j, h1, h2, h3, _⟩ := new_from_eq_some o w o' s s' h
      exact ⟨j, h1, h2, h3⟩
  have hj : j < s.gens.length := hvalid j hc
  have hs' : s'.gens.getD j 0 = o.weak.expected_gen + 1 := by
    rw [hs, List.getD_eq_getElem _ _ (by simpa using hj), List.getElem_set_self]
  have hmono := reachable_gens_le hreach j
  have hne : ¬ (lookupGen s'' r.current_gen = r.expected_gen) := by
    rw [hcell, hc, hexp]
    show ¬ s''.gens.getD j 0 = o.weak.expected_gen
    omega
  unfold Ref.get
  rw [if_neg hne]

/-- Claim C1 witness: a concrete owner of `1` is dropped (its cell goes to
generation 1 and is recycled into the local cache); its weak handle reads
nothing in the resulting state. -/
theorem claim_C1_witness :
    (Ref.mk (Cell.dyn 0) 0 (some (1 : Nat))).get (State.mk [1] [0] []) = none :=
  claim_C1 Nat (Own.mk (Ref.mk (Cell.dyn 0) 0 (some 1)))
    (Ref.mk (Cell.dyn 0) 0 (some 1))
    (State.mk [0] [] []) (State.mk [1] [0] []) (State.mk [1] [0] [])
    rfl rfl
    (by intro i hi; cases hi; decide)
    (Or.inl (by decide))
    Relation.ReflTransGen.refl

/-- Claim C4: generation values of a cell never decrease across any
sequence of library operations, and once a cell's value has moved away
from a reference point it never returns to it (no dead handle can
revive); owners created by `Own::new` and `Own::new_from` record the
cell's current generation as their expected generation; and acquiring a
counter from the recycler leaves every existing cell's generation
untouched (reuse resumes from the last value, never resets it). -/
theorem claim_C4 (α : Type) (v : α) (old : Own α) (o' : Own α)
    (t t' u s s' s'' : State) (i i₂ : Nat)
    (h1 : Reachable s s') (h2 : Reachable s' s'')
    (hne : s'.gens.getD i 0 ≠ s.gens.getD i 0)
    (hnf : Own.new_from v old t = some (o', t'))
    (hi₂ : i₂ < u.gens.length) :
    s.gens.getD i 0 ≤ s'.gens.getD i 0
    ∧ s''.gens.getD i 0 ≠ s.gens.getD i 0
    ∧ (Own.new v u).1.weak.expected_gen
        = lookupGen (Own.new v u).2 ((Own.new v u).1.weak.current_gen)
    ∧ o'.weak.expected_gen = lookupGen t' o'.weak.current_gen
    ∧ (new_generation_counter u).2.gens.getD i₂ 0 = u.gens.getD i₂ 0 := by
  have hm1 := reachable_gens_le h1 i
  have hm2 := reachable_gens_le h2 i
  refine ⟨hm1, by omega, rfl, ?_, ?_⟩
  · obtain ⟨j, ha, hb, hcg, ho⟩ := new_from_eq_some old v o' t t' hnf
    rw [ho]
    rfl
  · rcases new_counter_gens_cases u with h | h
    · rw [h]
    · rw [h, List.getD_append _ _ _ _ hi₂]

/-- Claim C4 witness: a concrete drop bumps cell 0 from 0 to 1, and the
mismatch persists; a concrete `new_from` at generation 5 records 6; a
concrete acquire from a fresh-looking state preserves cell 0's value. -/
theorem claim_C4_witness :
    (State.mk [0] [] []).gens.getD 0 0 ≤ (State.mk [1] [0] []).gens.getD 0 0
    ∧ (State.mk [1] [0] []).gens.getD 0 0 ≠ (State.mk [0] [] []).gens.getD 0 0
    ∧ (Own.new (2 : Nat) (State.mk [3] [] [])).1.weak.expected_gen
        = lookupGen (Own.new (2 : Nat) (State.mk [3] [] [])).2
            ((Own.new (2 : Nat) (State.mk [3] [] [])).1.weak.current_gen)
    ∧ (Own.mk (Ref.mk (Cell.dyn 0) 6 (some (2 : Nat)))).weak.expected_gen
        = lookupGen (State.mk [6] [] [])
            (Own.mk (Ref.mk (Cell.dyn 0) 6 (some (2 : Nat)))).weak.current_gen
    ∧ (new_generation_counter (State.mk [3] [] [])).2.gens.getD 0 0
        = (State.mk [3] [] []).gens.getD 0 0 :=
  claim_C4 Nat 2 (Own.mk (Ref.mk (Cell.dyn 0) 5 (some 1)))
    (Own.mk (Ref.mk (Cell.dyn 0) 6 (some 2)))
    (State.mk [5] [] []) (State.mk [6] [] []) (State.mk [3] [] [])
    (State.mk [0] [] []) (State.mk [1] [0] []) (State.mk [1] [0] []) 0 0
    (Relation.ReflTransGen.single
      (Step.drop Nat (Own.mk (Ref.mk (Cell.dyn 0) 0 (some 1)))
        (State.mk [0] [] []) (State.mk [1] [0] []) (by decide)))
    Relation.ReflTransGen.refl
    (by decide) (by decide) (by decide)

/-- Claim C8: `acquire` pops the last entry of the per-thread cache when
it is non-empty; with an empty cache it pops the front block of the
cross-thread pool, keeping the block's first counter and caching the
remaining ones (`BLOCK_SIZE - 1` of them, by the block invariant
`RecyclerInv`); with both empty it allocates `BLOCK_SIZE` fresh
zero-initialised counters, keeps one (its generation reads 0) and caches
the other `BLOCK_SIZE - 1`. -/
theorem claim_C8 (g g₂ g₃ : List Nat) (l : List Nat) (c next : Nat)
    (rest : List Nat) (p pool : List (Nat × List Nat)) :
    new_generation_counter (State.mk g (l ++ [c]) p) = (c, State.mk g l p)
    ∧ new_generation_counter (State.mk g₂ [] ((next, rest) :: pool)) =
        (next, State.mk g₂ rest pool)
    ∧ (new_generation_counter (State.mk g₃ [] [])).2.gens
        = g₃ ++ List.replicate BLOCK_SIZE 0
    ∧ (new_generation_counter (State.mk g₃ [] [])).2.localRec.length = BLOCK_SIZE - 1
    ∧ (new_generation_counter (State.mk g₃ [] [])).2.globalRec = []
    ∧ lookupGen (new_generation_counter (State.mk g₃ [] [])).2
        (Cell.dyn (new_generation_counter (State.mk g₃ [] [])).1) = 0 := by
  refine ⟨?_, rfl, rfl, ?_, rfl, ?_⟩
  · simp [new_generation_counter]
  · show ((List.range BLOCK_SIZE).map (fun j => g₃.length + j)).dropLast.length
        = BLOCK_SIZE - 1
    simp
  · show (g₃ ++ List.replicate BLOCK_SIZE 0).getD (g₃.length + (BLOCK_SIZE - 1)) 0 = 0
    rw [List.getD_append_right _ _ _ _ (Nat.le_add_right _ _), Nat.add_sub_cancel_left,
      List.getD_eq_getElem _ _ (by rw [List.length_replicate]; simp only [BLOCK_SIZE]; omega),
      List.getElem_replicate]

/-- Claim C9: `release` at cache capacity `2 * BLOCK_SIZE` first drains
exactly `BLOCK_SIZE` counters into one new block pushed onto the
cross-thread pool and then pushes the released counter (cache length
becomes `BLOCK_SIZE + 1`); below capacity it just pushes; the cache level
never exceeds `2 * BLOCK_SIZE` in any reachable state, before or after a
release; and a retired cell is never released — the drop that retires a
cell returns a state whose recycler pools are untouched. -/
theorem claim_C9 (γ : Type) (o : Own γ) (sF sN t t' sR : State) (c cN i : Nat)
    (hF : sF.localRec.length = 2 * BLOCK_SIZE)
    (hN : sN.localRec.length ≠ 2 * BLOCK_SIZE)
    (hInv : RecyclerInv t)
    (hre : Reachable t t')
    (hc : o.weak.current_gen = Cell.dyn i)
    (hok : lookupGen sR (Cell.dyn i) = o.weak.expected_gen)
    (hmax : o.weak.expected_gen + 1 = USIZE_MAX) :
    (recycle_generation_counter c sF).globalRec
        = sF.globalRec ++ [(((sF.localRec.drop BLOCK_SIZE).reverse).headD 0,
                            ((sF.localRec.drop BLOCK_SIZE).reverse).tail)]
    ∧ 1 + ((sF.localRec.drop BLOCK_SIZE).reverse).tail.length = BLOCK_SIZE
    ∧ (recycle_generation_counter c sF).localRec = sF.localRec.take BLOCK_SIZE ++ [c]
    ∧ (recycle_generation_counter c sF).localRec.length = BLOCK_SIZE + 1
    ∧ (recycle_generation_counter cN sN).localRec = sN.localRec ++ [cN]
    ∧ (recycle_generation_counter cN sN).globalRec = sN.globalRec
    ∧ t'.localRec.length ≤ 2 * BLOCK_SIZE
    ∧ (recycle_generation_counter c t').localRec.length ≤ 2 * BLOCK_SIZE
    ∧ o.drop sR = some { sR with gens := sR.gens.set i USIZE_MAX } := by
  have hinv' : RecyclerInv t' := reachable_inv hre hInv
  obtain ⟨hFl, hFg⟩ :
      (recycle_generation_counter c sF).localRec = sF.localRec.take BLOCK_SIZE ++ [c]
      ∧ (recycle_generation_counter c sF).globalRec =
          sF.globalRec ++ [(((sF.localRec.drop BLOCK_SIZE).reverse).headD 0,
                            ((sF.localRec.drop BLOCK_SIZE).reverse).tail)] := by
    rcases recycle_localRec_cases c sF with ⟨_, h1, h2⟩ | ⟨hbad, _, _⟩
    · exact ⟨h1, h2⟩
    · exact absurd hF hbad
  obtain ⟨hNl, hNg⟩ :
      (recycle_generation_counter cN sN).localRec = sN.localRec ++ [cN]
      ∧ (recycle_generation_counter cN sN).globalRec = sN.globalRec := by
    rcases recycle_localRec_cases cN sN with ⟨hbad, _, _⟩ | ⟨_, h1, h2⟩
    · exact absurd hbad hN
    · exact ⟨h1, h2⟩
  refine ⟨hFg, ?_, hFl, ?_, hNl, hNg, hinv'.1, (recycle_inv c t' hinv').1, ?_⟩
  · simp only [List.length_tail, List.length_reverse, List.length_drop]
    simp only [BLOCK_SIZE] at hF ⊢
    omega
  · rw [hFl]
    simp only [List.length_append, List.length_take, List.length_cons, List.length_nil]
    simp only [BLOCK_SIZE] at hF ⊢
    omega
  · exact (drop_retired (0 : Nat) o sR i hc hok hmax).2.1

/-- Claim C9 witness: releasing into a full cache of `2 * BLOCK_SIZE`
counters drains a block to the pool; releasing into an empty cache just
pushes; the empty state satisfies the cache bound; and the concrete
retiring drop of claim C10's scenario leaves the pools empty. -/
theorem claim_C9_witness :
    (recycle_generation_counter 7 (State.mk [] (List.replicate (2 * BLOCK_SIZE) 0) [])).localRec
        = (List.replicate (2 * BLOCK_SIZE) (0 : Nat)).take BLOCK_SIZE ++ [7]
    ∧ (recycle_generation_counter 9 (State.mk [] [] [])).localRec = [] ++ [9]
    ∧ (recycle_generation_counter 9 (State.mk [] [] [])).globalRec = []
    ∧ (State.mk [] [] []).localRec.length ≤ 2 * BLOCK_SIZE
    ∧ (Own.mk (Ref.mk (Cell.dyn 0) (USIZE_MAX - 1) (some (3 : Nat)))).drop
        (State.mk [USIZE_MAX - 1] [] []) =
        some { State.mk [USIZE_MAX - 1] [] [] with gens := [USIZE_MAX - 1].set 0 USIZE_MAX } := by
  have h := claim_C9 Nat (Own.mk (Ref.mk (Cell.dyn 0) (USIZE_MAX - 1) (some 3)))
    (State.mk [] (List.replicate (2 * BLOCK_SIZE) 0) []) (State.mk [] [] [])
    (State.mk [] [] []) (State.mk [] [] []) (State.mk [USIZE_MAX - 1] [] []) 7 9 0
    (by simp) (by decide)
    ⟨by simp, by intro b hb; exact absurd hb (List.not_mem_nil b)⟩
    Relation.ReflTransGen.refl
    rfl (by decide) (by decide)
  exact ⟨h.2.2.1, h.2.2.2.2.1, h.2.2.2.2.2.1, h.2.2.2.2.2.2.1, h.2.2.2.2.2.2.2.2⟩

/-- Claim C10 witness: a concrete owner at expected generation
`usize::MAX - 1` panics under `new_from` and drops cleanly. -/
theorem claim_C10_witness :
    Own.new_from (0 : Nat)
        (Own.mk (Ref.mk (Cell.dyn 0) (USIZE_MAX - 1) (some (5 : Nat))))
        (State.mk [USIZE_MAX - 1] [] []) = none
    ∧ (Own.mk (Ref.mk (Cell.dyn 0) (USIZE_MAX - 1) (some (5 : Nat)))).drop
        (State.mk [USIZE_MAX - 1] [] []) =
        some { State.mk [USIZE_MAX - 1] [] [] with gens := [USIZE_MAX - 1].set 0 USIZE_MAX } :=
  claim_C10 Nat Nat 0 (Own.mk (Ref.mk (Cell.dyn 0) (USIZE_MAX - 1) (some 5)))
    (State.mk [USIZE_MAX - 1] [] []) 0 rfl (by decide) (by decide)

end Weakref
